import Mathlib

/-!
Verification of the `postbuild` HTML asset injector.

The repository has two functional source files:
  * `src/postbuild.mjs` (ESM variant), embedded below in namespace `Mjs`;
  * `src/unnamed/part_000` (CJS variant adding `--async`/`--defer`), embedded
    in namespace `P000`.

Both pipe the input file through four `replacestream` stages:
  1. `/(<!-- inject:js -->)([\s\S]*?)(<!-- endinject -->)/gm` replaced by the
     joined JS fragments when non-empty, else by the whole match;
  2. the same for `<!-- inject:css -->`;
  3. `/(<!-- inject:git-hash -->)/gm` replaced by the comment holding the
     revision;
  4. the remove-region regex built from the remove condition, replaced by the
     empty string.

The regex patterns used are of two shapes only: a literal string, or
`A[\s\S]*?B` with `A`, `B` literal strings.  Global replacement for such a
pattern means: repeatedly find the leftmost occurrence of `A`, then the first
occurrence of `B` at or after the end of that `A`; replace the span from the
start of `A` to the end of `B`; continue scanning after the replaced span
(replacement text is never rescanned).  `splitFirst`, `replaceAllL` and
`replaceRegions` below model exactly this on `List Char`.

Modelling notes.
  * Strings are `List Char` / `String` over code points; the JS source works
    over UTF-16 units, which coincides on ASCII text such as the markers.
  * The remove-stage condition is interpolated into the regex unescaped in
    the source.  `removeStageRegex` models that interpolation as regex syntax
    on the literal-plus-dot fragment; the pipeline embeddings use the
    literal-string `removeStage`, which provably coincides with
    `removeStageRegex` whenever the condition token is free of regex
    metacharacters, and diverges from the program otherwise (see C2).
  * The filesystem, glob library and content digest are abstracted in `FSEnv`;
    the digest of `crypto.createHash('sha')` is modelled by the abstract
    `FSEnv.hexDigest` function on file content.
-/

/-- `splitFirst pat s` finds the first occurrence of `pat` in `s`, returning
the part before the occurrence and the part after it (the occurrence itself
removed), or `none` when `pat` does not occur in `s`. -/
def splitFirst (pat : List Char) (s : List Char) : Option (List Char × List Char) :=
  if pat.isPrefixOf s then some ([], s.drop pat.length)
  else
    match s with
    | [] => none
    | c :: cs => (splitFirst pat cs).map (fun pr => (c :: pr.1, pr.2))

/-- `pat` occurs somewhere in `s`. -/
def containsSub (pat s : List Char) : Bool := (splitFirst pat s).isSome

/-! ### Global substitution, as performed by `replacestream`

`replaceAllL pat rep s` models a global replace of the literal pattern `pat`
by `rep` (pipeline stage 3).  `replaceRegions a b f s` models a global replace
of `A[\s\S]*?B` where the replacement is computed by `f` from the whole match
(stages 1, 2 and 4).  Both are defined through a fuel-indexed worker so that
they compute by structural recursion; one unit of fuel is spent per match, and
each match consumes at least one character, so `s.length + 1` fuel is always
enough. -/

def replaceAllGo (pat rep : List Char) : Nat → List Char → List Char
  | 0, s => s
  | fuel + 1, s =>
    match splitFirst pat s with
    | none => s
    | some (pre, rest) => pre ++ rep ++ replaceAllGo pat rep fuel rest

def replaceAllL (pat rep s : List Char) : List Char :=
  replaceAllGo pat rep (s.length + 1) s

def replaceRegionsGo (a b : List Char) (f : List Char → List Char) :
    Nat → List Char → List Char
  | 0, s => s
  | fuel + 1, s =>
    match splitFirst a s with
    | none => s
    | some (pre, rest) =>
      match splitFirst b rest with
      | none => s
      | some (mid, post) =>
        pre ++ f (a ++ mid ++ b) ++ replaceRegionsGo a b f fuel post

def replaceRegions (a b : List Char) (f : List Char → List Char) (s : List Char) :
    List Char :=
  replaceRegionsGo a b f (s.length + 1) s

/-! ### Documents with explicitly delimited regions

`renderRegions a b parts tl` is the document consisting, for each pair
`(gap, body)` in `parts`, of the free text `gap` followed by the region
`a ++ body ++ b`, and ending in the free text `tl`.  `regionsOk` states the
well-formedness conditions under which the regex scan finds exactly the
intended regions: no occurrence of the start marker begins inside a gap, no
occurrence of the end marker begins inside a body, and the trailing text
contains no start marker. -/

def renderRegions (a b : List Char) (parts : List (List Char × List Char))
    (tl : List Char) : List Char :=
  match parts with
  | [] => tl
  | (g, body) :: rest => g ++ a ++ body ++ b ++ renderRegions a b rest tl

def renderRegionsOut (f : List Char → List Char) (a b : List Char)
    (parts : List (List Char × List Char)) (tl : List Char) : List Char :=
  match parts with
  | [] => tl
  | (g, body) :: rest => g ++ f (a ++ body ++ b) ++ renderRegionsOut f a b rest tl

def regionsOk (a b : List Char) (parts : List (List Char × List Char))
    (tl : List Char) : Bool :=
  parts.all (fun p =>
    !(containsSub a (p.1 ++ a.dropLast)) && !(containsSub b (p.2 ++ b.dropLast)))
  && !(containsSub a tl)

/-! ### The same for the single-literal stage -/

def renderGaps (pat : List Char) (gaps : List (List Char)) (tl : List Char) : List Char :=
  match gaps with
  | [] => tl
  | g :: rest => g ++ pat ++ renderGaps pat rest tl

def renderGapsOut (rep : List Char) (gaps : List (List Char)) (tl : List Char) : List Char :=
  match gaps with
  | [] => tl
  | g :: rest => g ++ rep ++ renderGapsOut rep rest tl

def gapsOk (pat : List Char) (gaps : List (List Char)) (tl : List Char) : Bool :=
  gaps.all (fun g => !(containsSub pat (g ++ pat.dropLast))) && !(containsSub pat tl)

/-! ### Models of the JavaScript string primitives used by the source

Core `String` functions such as `String.splitOn` or `String.endsWith` do not
reduce inside the kernel, so the JS string primitives are modelled over
`String.data` directly.  JS lengths and slices count UTF-16 units; the model
counts code points, which coincides on ASCII input. -/

/-- `s.endsWith(suffix)`. -/
def jsEndsWith (s suffix : String) : Bool := suffix.toList.isSuffixOf s.toList

/-- `s.length`. -/
def jsLength (s : String) : Nat := s.toList.length

/-- `s.slice(n)`. -/
def jsSlice (s : String) (n : Nat) : String := (s.toList.drop n).asString

/-- `xs.join(sep)`. -/
def jsJoin (sep : String) (xs : List String) : String :=
  (List.intercalate sep.toList (xs.map String.toList)).asString

/-- `r.split(':').pop()`: everything after the last colon (the whole string
when there is no colon). -/
def lastColonToken (r : String) : String :=
  ((r.toList.reverse.takeWhile (fun c => !(c = ':'))).reverse).asString

/-! ### Filesystem abstraction

The source reaches the outside world through `node:fs/promises` (`lstat`,
`readdir`, `readFile`), the `glob` library (`glob`, `hasMagic`) and
`crypto.createHash('sha')`.  `FSEnv` abstracts all of them.  `lstat` returning
`none` models the promise rejecting (path missing); a directory stat carries
the `readdir` listing; `readFile` returning `none` models a read error.
`hexDigest` is the hex digest of a content string. -/

deriving instance DecidableEq for Except

inductive FStat
  | directory (entries : List String)
  | file
  | special
deriving DecidableEq

structure FSEnv where
  hasMagic : String → Bool
  globResolve : String → List String
  lstat : String → Option FStat
  readFile : String → Option String
  hexDigest : String → String

def isQuoteChar (c : Char) : Bool := c = '\'' || c = '"'

/-- `pattern.replace(/^['"](.+)["']$/, '$1')`: strip one layer of surrounding
quotes (the quote characters need not match) when the pattern is at least
three characters long and both ends are quote characters. -/
def unwrapQuotes (p : String) : String :=
  let cs := p.toList
  if 3 ≤ cs.length && cs.head?.elim false isQuoteChar && cs.getLast?.elim false isQuoteChar
  then ((cs.drop 1).dropLast).asString
  else p

/-- Model of `path.posix.join` for two segments whose components are free of
`.`/`..` and internal repeated slashes (the only inputs the program produces:
a user-supplied directory path and a `readdir` entry). -/
def posixJoin (a b : String) : String :=
  if a = "" then b
  else if b = "" then a
  else ((a.toList.reverse.dropWhile (fun c => c = '/')).reverse).asString ++ "/" ++ b

/-- The tag-generation options destructured from the commander option bag.
`ignore = some ig` models `typeof ignore === 'string'`; `etag` models
`etag != null`; `async`/`defer` exist only in `src/unnamed/part_000` and are
ignored by the `Mjs` functions, whose source never destructures them. -/
structure TagOpts where
  async : Bool
  defer : Bool
  inline : Bool
  ignore : Option String
  etag : Bool

namespace Mjs

/-- `src/postbuild.mjs` lines 20–25: read the file at `filename`, digest its
content, and append `?etag=<hexdigest>`.  A failing read rejects, carrying the
offending filename. -/
def appendETagSHAToFilename (fs : FSEnv) (filename : String) : Except String String :=
  match fs.readFile filename with
  | none => .error filename
  | some content => .ok (filename ++ "?etag=" ++ fs.hexDigest content)

/-- `src/postbuild.mjs` lines 27–43. -/
def patternToFileNames (fs : FSEnv) (pattern extension : String) :
    Except String (List String) :=
  if fs.hasMagic pattern then .ok (fs.globResolve (unwrapQuotes pattern))
  else
    match fs.lstat pattern with
    | none => .error pattern
    | some (.directory entries) =>
        .ok ((entries.filter (fun f => jsEndsWith f extension)).map
          (fun f => posixJoin pattern f))
    | some .file => .ok [pattern]
    | some .special => .ok []

/-- `src/postbuild.mjs` lines 48–62, body of the `for` loop of
`filePatternToScriptTags` for one `fileName`. -/
def scriptTagFor (fs : FSEnv) (o : TagOpts) (fileName : String) :
    Except String String :=
  if o.inline then
    match fs.readFile fileName with
    | none => .error fileName
    | some content => .ok ("<script>" ++ content ++ "</script>")
  else
    let path1 := match o.ignore with
      | some ig => jsSlice fileName (jsLength ig)
      | none => fileName
    let path2 : Except String String :=
      if o.etag then appendETagSHAToFilename fs path1 else .ok path1
    path2.map (fun p => "<script src=\"" ++ p ++ "\"></script>")

/-- `src/postbuild.mjs` lines 71–85, body of the `for` loop of
`filePatternToStyleTags` for one `fileName`. -/
def styleTagFor (fs : FSEnv) (o : TagOpts) (fileName : String) :
    Except String String :=
  if o.inline then
    match fs.readFile fileName with
    | none => .error fileName
    | some content => .ok ("<style>" ++ content ++ "</style>")
  else
    let path1 := match o.ignore with
      | some ig => jsSlice fileName (jsLength ig)
      | none => fileName
    let path2 : Except String String :=
      if o.etag then appendETagSHAToFilename fs path1 else .ok path1
    path2.map (fun p => "<link rel=\"stylesheet\" href=\"" ++ p ++ "\">")

/-- The `for … tags.push(…)` loop: build one tag per file in order, aborting
on the first rejected promise. -/
def tagsFor (tag : String → Except String String) :
    List String → Except String (List String)
  | [] => .ok []
  | f :: rest =>
    match tag f with
    | .error e => .error e
    | .ok t => (tagsFor tag rest).map (fun ts => t :: ts)

/-- `src/postbuild.mjs` lines 45–63. -/
def filePatternToScriptTags (fs : FSEnv) (pattern : String) (o : TagOpts) :
    Except String (List String) :=
  match patternToFileNames fs pattern ".js" with
  | .error e => .error e
  | .ok fileNames => tagsFor (scriptTagFor fs o) fileNames

/-- `src/postbuild.mjs` lines 65–85. -/
def filePatternToStyleTags (fs : FSEnv) (pattern : String) (o : TagOpts) :
    Except String (List String) :=
  match patternToFileNames fs pattern ".css" with
  | .error e => .error e
  | .ok fileNames => tagsFor (styleTagFor fs o) fileNames

end Mjs

namespace P000

/-- `src/unnamed/part_000` lines 22–27 (identical to the Mjs variant). -/
def appendETagSHAToFilename (fs : FSEnv) (filename : String) : Except String String :=
  match fs.readFile filename with
  | none => .error filename
  | some content => .ok (filename ++ "?etag=" ++ fs.hexDigest content)

/-- `src/unnamed/part_000` lines 29–45 (identical to the Mjs variant). -/
def patternToFileNames (fs : FSEnv) (pattern extension : String) :
    Except String (List String) :=
  if fs.hasMagic pattern then .ok (fs.globResolve (unwrapQuotes pattern))
  else
    match fs.lstat pattern with
    | none => .error pattern
    | some (.directory entries) =>
        .ok ((entries.filter (fun f => jsEndsWith f extension)).map
          (fun f => posixJoin pattern f))
    | some .file => .ok [pattern]
    | some .special => .ok []

/-- `src/unnamed/part_000` lines 47–71, body of the `for` loop of
`filePatternToScriptTags`: the attribute list starts with `src="…"`, gains
`async` when requested, else `defer` when requested, and the tag is
`<script ${attributes.join(' ')}></script>`. -/
def scriptTagFor (fs : FSEnv) (o : TagOpts) (fileName : String) :
    Except String String :=
  if o.inline then
    match fs.readFile fileName with
    | none => .error fileName
    | some content => .ok ("<script>" ++ content ++ "</script>")
  else
    let path1 := match o.ignore with
      | some ig => jsSlice fileName (jsLength ig)
      | none => fileName
    let path2 : Except String String :=
      if o.etag then appendETagSHAToFilename fs path1 else .ok path1
    path2.map (fun p =>
      let attributes := ["src=\"" ++ p ++ "\""]
        ++ (if o.async then ["async"] else if o.defer then ["defer"] else [])
      "<script " ++ jsJoin " " attributes ++ "></script>")

/-- `src/unnamed/part_000` lines 74–93 (identical to the Mjs variant). -/
def styleTagFor (fs : FSEnv) (o : TagOpts) (fileName : String) :
    Except String String :=
  if o.inline then
    match fs.readFile fileName with
    | none => .error fileName
    | some content => .ok ("<style>" ++ content ++ "</style>")
  else
    let path1 := match o.ignore with
      | some ig => jsSlice fileName (jsLength ig)
      | none => fileName
    let path2 : Except String String :=
      if o.etag then appendETagSHAToFilename fs path1 else .ok path1
    path2.map (fun p => "<link rel=\"stylesheet\" href=\"" ++ p ++ "\">")

def tagsFor (tag : String → Except String String) :
    List String → Except String (List String)
  | [] => .ok []
  | f :: rest =>
    match tag f with
    | .error e => .error e
    | .ok t => (tagsFor tag rest).map (fun ts => t :: ts)

/-- `src/unnamed/part_000` lines 47–72. -/
def filePatternToScriptTags (fs : FSEnv) (pattern : String) (o : TagOpts) :
    Except String (List String) :=
  match patternToFileNames fs pattern ".js" with
  | .error e => .error e
  | .ok fileNames => tagsFor (scriptTagFor fs o) fileNames

/-- `src/unnamed/part_000` lines 74–93. -/
def filePatternToStyleTags (fs : FSEnv) (pattern : String) (o : TagOpts) :
    Except String (List String) :=
  match patternToFileNames fs pattern ".css" with
  | .error e => .error e
  | .ok fileNames => tagsFor (styleTagFor fs o) fileNames

end P000

/-! ### The four-stage transform pipeline -/

/-- Last colon-separated token of the `--remove` argument, as computed by
`options.remove.split(':').pop()`; the empty string when `--remove` was not
supplied (or was supplied falsy, i.e. empty). -/
def removeConditionOf (removeOpt : Option String) : String :=
  match removeOpt with
  | none => ""
  | some r => if r = "" then "" else lastColonToken r

namespace Mjs

/-- `src/postbuild.mjs` lines 156–160: the `inject:js` stage. -/
def injectJsStage (jsFiles : List String) (s : List Char) : List Char :=
  replaceRegions ("<!-- inject:js -->").toList ("<!-- endinject -->").toList
    (fun m => if 0 < jsFiles.length then (jsJoin "\n" jsFiles).toList else m) s

/-- `src/postbuild.mjs` lines 161–165: the `inject:css` stage. -/
def injectCssStage (cssFiles : List String) (s : List Char) : List Char :=
  replaceRegions ("<!-- inject:css -->").toList ("<!-- endinject -->").toList
    (fun m => if 0 < cssFiles.length then (jsJoin "\n" cssFiles).toList else m) s

/-- `src/postbuild.mjs` line 166: the `inject:git-hash` stage. -/
def gitHashStage (revision : String) (s : List Char) : List Char :=
  replaceAllL ("<!-- inject:git-hash -->").toList
    ("<!-- " ++ revision ++ " -->").toList s

/-- `src/postbuild.mjs` line 167: the remove stage, with the condition
interpolated literally — faithful exactly on metacharacter-free condition
tokens, where it coincides with the regex-interpolation model
`removeStageRegex` (see the modelling notes and C2). -/
def removeStage (removeCondition : String) (s : List Char) : List Char :=
  replaceRegions ("<!-- remove:" ++ removeCondition ++ " -->").toList
    ("<!-- endremove -->").toList (fun _ => []) s

/-- `src/postbuild.mjs` lines 155–168: the whole chained pipe. -/
def pipelineCore (jsFiles cssFiles : List String) (revision removeCondition : String)
    (s : List Char) : List Char :=
  removeStage removeCondition
    (gitHashStage revision
      (injectCssStage cssFiles
        (injectJsStage jsFiles s)))

def transformPipeline (jsFiles cssFiles : List String)
    (revision removeCondition : String) (input : String) : String :=
  (pipelineCore jsFiles cssFiles revision removeCondition input.toList).asString

end Mjs

namespace P000

/-- `src/unnamed/part_000` lines 171–175: the `inject:js` stage. -/
def injectJsStage (jsFiles : List String) (s : List Char) : List Char :=
  replaceRegions ("<!-- inject:js -->").toList ("<!-- endinject -->").toList
    (fun m => if 0 < jsFiles.length then (jsJoin "\n" jsFiles).toList else m) s

/-- `src/unnamed/part_000` lines 176–180: the `inject:css` stage. -/
def injectCssStage (cssFiles : List String) (s : List Char) : List Char :=
  replaceRegions ("<!-- inject:css -->").toList ("<!-- endinject -->").toList
    (fun m => if 0 < cssFiles.length then (jsJoin "\n" cssFiles).toList else m) s

/-- `src/unnamed/part_000` line 181: the `inject:git-hash` stage. -/
def gitHashStage (revision : String) (s : List Char) : List Char :=
  replaceAllL ("<!-- inject:git-hash -->").toList
    ("<!-- " ++ revision ++ " -->").toList s

/-- `src/unnamed/part_000` line 182: the remove stage, with the condition
interpolated literally — faithful exactly on metacharacter-free condition
tokens (see the modelling notes and C2). -/
def removeStage (removeCondition : String) (s : List Char) : List Char :=
  replaceRegions ("<!-- remove:" ++ removeCondition ++ " -->").toList
    ("<!-- endremove -->").toList (fun _ => []) s

/-- `src/unnamed/part_000` lines 170–183: the whole chained pipe. -/
def pipelineCore (jsFiles cssFiles : List String) (revision removeCondition : String)
    (s : List Char) : List Char :=
  removeStage removeCondition
    (gitHashStage revision
      (injectCssStage cssFiles
        (injectJsStage jsFiles s)))

def transformPipeline (jsFiles cssFiles : List String)
    (revision removeCondition : String) (input : String) : String :=
  (pipelineCore jsFiles cssFiles revision removeCondition input.toList).asString

end P000

/-! ### The asset-resolution step of the main script, with its catch blocks

In `src/postbuild.mjs` the js catch block is
`handleError(`File or folder '${js}' not found`)`, but no binding named `js`
exists in any enclosing scope (the option value lives in `options.js`; the
`try` block destructures only `inline`, `ignore`, `etag`); evaluating the
template literal therefore throws a `ReferenceError` inside the catch, which
escapes the handler.  `src/unnamed/part_000` writes `options.js` instead.
`lookupName` models identifier resolution against the enclosing scopes. -/

inductive ResolveOutcome
  | resolved (tags : List String)
  | fatalMessage (msg : String)
  | uncaughtException
deriving DecidableEq

def lookupName (names : List String) (valueOf : String → String) (name : String) :
    Except Unit String :=
  if name ∈ names then .ok (valueOf name) else .error ()

namespace Mjs

/-- Every identifier bound in a scope enclosing the js catch block of
`src/postbuild.mjs`: the module-scope imports and declarations, the bindings
destructured in the `try` block, and the catch parameter. -/
def jsCatchScopeNames : List String :=
  ["promisify", "cp", "fs", "fsPromise", "path", "crypto", "glob", "hasMagic",
   "replaceStream", "program", "handleError", "getFullPath",
   "appendETagSHAToFilename", "patternToFileNames", "filePatternToScriptTags",
   "filePatternToStyleTags", "options", "inputFile", "outputFile", "jsFiles",
   "inline", "ignore", "etag", "e"]

/-- `src/postbuild.mjs` lines 126–134: compute `jsFiles`, handling a rejected
promise in the catch block.  `valueOf` gives the string value of an in-scope
identifier, were one found. -/
def resolveJsTags (fs : FSEnv) (o : TagOpts) (valueOf : String → String)
    (jsPattern : String) : ResolveOutcome :=
  match filePatternToScriptTags fs jsPattern o with
  | .ok tags => .resolved tags
  | .error _ =>
    match lookupName jsCatchScopeNames valueOf "js" with
    | .ok v => .fatalMessage ("File or folder '" ++ v ++ "' not found")
    | .error _ => .uncaughtException

end Mjs

namespace P000

/-- `src/unnamed/part_000` lines 140–147: the catch block interpolates
`options.js`, which is the pattern itself. -/
def resolveJsTags (fs : FSEnv) (o : TagOpts) (jsPattern : String) : ResolveOutcome :=
  match filePatternToScriptTags fs jsPattern o with
  | .ok tags => .resolved tags
  | .error _ => .fatalMessage ("File or folder '" ++ jsPattern ++ "' not found")

end P000

/-! ### The remove-stage condition as regex syntax

`new RegExp` receives the remove condition unescaped
(`src/postbuild.mjs` line 167, `src/unnamed/part_000` line 182), so the
condition's characters are regex syntax, not literals.  The following models
that interpolation on the fragment the model supports: literal characters
plus the `.` metacharacter (one item per character; `.` matches any character
except a line terminator).  A condition containing any other metacharacter is
outside the modelled fragment and compiles to `none`.  On metacharacter-free
conditions this model provably coincides with the literal-string
`removeStage` used in the pipeline embeddings. -/

inductive RegexItem
  | lit (c : Char)
  | dot
deriving DecidableEq

/-- JS regex metacharacters other than `.`. -/
def jsRegexSpecial (c : Char) : Bool :=
  c = '\\' || c = '^' || c = '$' || c = '*' || c = '+' || c = '?'
    || c = '(' || c = ')' || c = '[' || c = ']' || c = '\x7b' || c = '\x7d' || c = '|'

/-- Compile one character of the interpolated condition token. -/
def compileCondChar (c : Char) : Option RegexItem :=
  if c = '.' then some .dot
  else if jsRegexSpecial c then none
  else some (.lit c)

def compileCondList : List Char → Option (List RegexItem)
  | [] => some []
  | c :: cs =>
    match compileCondChar c, compileCondList cs with
    | some i, some is => some (i :: is)
    | _, _ => none

/-- `.` matches any character except a line terminator (no `s` flag). -/
def itemMatches (i : RegexItem) (c : Char) : Bool :=
  match i with
  | .lit a => a = c
  | .dot => !(c = '\n' || c = '\r' || c = Char.ofNat 0x2028 || c = Char.ofNat 0x2029)

/-- Match every item against one character each at the head of `s`, returning
the remainder (the fragment has no quantifiers, so a match consumes exactly
one character per item). -/
def itemsMatchPrefix : List RegexItem → List Char → Option (List Char)
  | [], s => some s
  | _ :: _, [] => none
  | i :: is, c :: cs => if itemMatches i c then itemsMatchPrefix is cs else none

/-- First match of the item sequence in `s`: the text before it and the text
after it. -/
def splitFirstItems (items : List RegexItem) : List Char → Option (List Char × List Char)
  | [] =>
    match itemsMatchPrefix items [] with
    | some rest => some ([], rest)
    | none => none
  | c :: cs =>
    match itemsMatchPrefix items (c :: cs) with
    | some rest => some ([], rest)
    | none => (splitFirstItems items cs).map (fun pr => (c :: pr.1, pr.2))

def replaceRegionsItemsGo (a : List RegexItem) (b : List Char) :
    Nat → List Char → List Char
  | 0, s => s
  | fuel + 1, s =>
    match splitFirstItems a s with
    | none => s
    | some (pre, rest) =>
      match splitFirst b rest with
      | none => s
      | some (_, post) => pre ++ replaceRegionsItemsGo a b fuel post

/-- Global deletion of `a[\s\S]*?b` matches, `a` an item sequence. -/
def replaceRegionsItems (a : List RegexItem) (b : List Char) (s : List Char) :
    List Char :=
  replaceRegionsItemsGo a b (s.length + 1) s

/-- The compiled start marker `<!-- remove:<condition-pattern> -->`: the
static template parts are literal, the condition is regex syntax. -/
def removeStartItems (condItems : List RegexItem) : List RegexItem :=
  ("<!-- remove:").toList.map .lit ++ condItems ++ (" -->").toList.map .lit

/-- The remove stage with the condition interpolated as regex syntax, the
faithful model of `src/postbuild.mjs` line 167 / `src/unnamed/part_000`
line 182 on the literal-plus-dot fragment; `none` when the condition falls
outside the fragment. -/
def removeStageRegex (removeCondition : String) (s : List Char) :
    Option (List Char) :=
  match compileCondList removeCondition.toList with
  | none => none
  | some items =>
      some (replaceRegionsItems (removeStartItems items)
        ("<!-- endremove -->").toList s)

/-- A small concrete filesystem used to instantiate the theorems: a `build`
directory whose `app.js` also exists, with different content, under the
prefix-stripped name `app.js`, plus a socket-like special file. -/
def fsDemo : FSEnv where
  hasMagic := fun _ => false
  globResolve := fun _ => []
  lstat := fun p =>
    if p = "build" then some (.directory ["app.js", "app.css", "readme.txt"])
    else if p = "build/app.js" then some .file
    else if p = "app.js" then some .file
    else if p = "sock" then some .special
    else none
  readFile := fun p =>
    if p = "build/app.js" then some "AAA"
    else if p = "app.js" then some "BBB"
    else none
  hexDigest := fun c => c

/-! ### Properties of the matching and substitution model -/

theorem splitFirst_of_isPrefixOf {pat s : List Char} (h : pat.isPrefixOf s = true) :
    splitFirst pat s = some ([], s.drop pat.length) := by
  rw [splitFirst.eq_def, if_pos h]

theorem splitFirst_cons_of_no_match {pat : List Char} (c : Char) (cs : List Char)
    (h : pat.isPrefixOf (c :: cs) = false) :
    splitFirst pat (c :: cs) = (splitFirst pat cs).map (fun pr => (c :: pr.1, pr.2)) := by
  rw [splitFirst.eq_def, if_neg (by simp [h])]

theorem splitFirst_eq_some {pat s pre rest : List Char}
    (h : splitFirst pat s = some (pre, rest)) : pre ++ pat ++ rest = s := by
  induction s generalizing pre with
  | nil =>
    rw [splitFirst.eq_def] at h
    split at h
    · next hp =>
      have hpat : pat = [] := List.prefix_nil.mp ( List.isPrefixOf_iff_prefix.mp hp)
      simp only [Option.some.injEq, Prod.mk.injEq] at h
      obtain ⟨h1, h2⟩ := h
      subst hpat; subst h1; subst h2
      simp
    · simp at h
  | cons c cs ih =>
    rw [splitFirst.eq_def] at h
    split at h
    · next hp =>
      simp only [Option.some.injEq, Prod.mk.injEq] at h
      obtain ⟨h1, h2⟩ := h
      obtain ⟨t, ht⟩ := List.isPrefixOf_iff_prefix.mp hp
      subst h1; subst h2
      rw [List.nil_append, ← ht, List.drop_left]
    · have h' : (splitFirst pat cs).map (fun pr => (c :: pr.1, pr.2)) = some (pre, rest) := h
      rw [Option.map_eq_some'] at h'
      obtain ⟨⟨pre', rest'⟩, hsf, heq⟩ := h'
      simp only [Prod.mk.injEq] at heq
      obtain ⟨h1, h2⟩ := heq
      subst h2
      have hind := ih hsf
      rw [← h1]
      simpa using congrArg (c :: ·) hind

theorem splitFirst_none_of_not_contains {pat s : List Char}
    (h : containsSub pat s = false) : splitFirst pat s = none := by
  unfold containsSub at h
  cases hs : splitFirst pat s with
  | none => rfl
  | some v => rw [hs] at h; simp at h

theorem containsSub_of_isPrefixOf {pat s : List Char}
    (h : pat.isPrefixOf s = true) : containsSub pat s = true := by
  unfold containsSub
  rw [splitFirst_of_isPrefixOf h]
  rfl

theorem containsSub_cons {pat s : List Char} (c : Char)
    (h : containsSub pat s = true) : containsSub pat (c :: s) = true := by
  unfold containsSub at h ⊢
  by_cases hp : pat.isPrefixOf (c :: s) = true
  · rw [splitFirst_of_isPrefixOf hp]; rfl
  · rw [splitFirst_cons_of_no_match c s (Bool.eq_false_iff.mpr hp)]
    cases hs : splitFirst pat s with
    | none => rw [hs] at h; simp at h
    | some v => simp

/-- An occurrence of `pat` starting strictly inside `g` within `g ++ pat ++ x`
lies entirely inside `g ++ pat.dropLast`; hence if that shorter list has no
occurrence, the first occurrence of `pat` in `g ++ pat ++ x` is the explicit
middle one. -/
theorem splitFirst_append {pat : List Char} (g x : List Char)
    (h : containsSub pat (g ++ pat.dropLast) = false) :
    splitFirst pat (g ++ pat ++ x) = some (g, x) := by
  have hpat : pat ≠ [] := by
    intro hc
    subst hc
    have htr : containsSub [] (g ++ List.dropLast []) = true :=
      containsSub_of_isPrefixOf List.isPrefixOf_nil_left
    rw [h] at htr
    exact Bool.noConfusion htr
  induction g with
  | nil =>
    rw [List.nil_append]
    rw [splitFirst_of_isPrefixOf
      ( List.isPrefixOf_iff_prefix.mpr (List.prefix_append pat x))]
    rw [List.drop_left]
  | cons c g' ih =>
    have h' : containsSub pat (g' ++ pat.dropLast) = false := by
      cases hc : containsSub pat (g' ++ pat.dropLast) with
      | false => rfl
      | true =>
        have hcc := containsSub_cons c hc
        rw [← List.cons_append] at hcc
        rw [h] at hcc
        exact Bool.noConfusion hcc
    have hnp : pat.isPrefixOf ((c :: g') ++ pat ++ x) = false := by
      cases hp : pat.isPrefixOf ((c :: g') ++ pat ++ x) with
      | false => rfl
      | true =>
        exfalso
        have htake := List.prefix_iff_eq_take.mp ( List.isPrefixOf_iff_prefix.mp hp)
        have hkey : List.take pat.length ((c :: g') ++ pat ++ x)
            = List.take pat.length ((c :: g') ++ pat.dropLast) := by
          rw [List.append_assoc,
              @List.take_append_eq_append_take Char (c :: g') (pat ++ x) pat.length,
              @List.take_append_eq_append_take Char (c :: g') pat.dropLast pat.length]
          congr 1
          rw [List.take_append_of_le_length (Nat.le_trans (Nat.sub_le _ _) (Nat.le_refl _)),
              List.dropLast_eq_take, List.take_take, Nat.min_eq_left]
          simp only [List.length_cons]
          have hplen : 1 ≤ pat.length := by
            cases pat with
            | nil => exact absurd rfl hpat
            | cons p ps => simp
          omega
        have hpre2 : pat <+: ((c :: g') ++ pat.dropLast) := by
          rw [List.prefix_iff_eq_take]
          rw [htake] at *
          rw [← hkey, ← htake]
        have hcon : containsSub pat ((c :: g') ++ pat.dropLast) = true :=
          containsSub_of_isPrefixOf ( List.isPrefixOf_iff_prefix.mpr hpre2)
        rw [h] at hcon
        exact Bool.noConfusion hcon
    have hshape : (c :: g') ++ pat ++ x = c :: (g' ++ pat ++ x) := by simp
    rw [hshape]
    rw [splitFirst_cons_of_no_match c (g' ++ pat ++ x) (by rw [← hshape]; exact hnp)]
    rw [ih h']
    rfl

theorem replaceRegionsGo_render (a b : List Char) (f : List Char → List Char)
    (parts : List (List Char × List Char)) (tl : List Char) (fuel : Nat)
    (hfu : parts.length < fuel) (hok : regionsOk a b parts tl = true) :
    replaceRegionsGo a b f fuel (renderRegions a b parts tl)
      = renderRegionsOut f a b parts tl := by
  induction parts generalizing fuel with
  | nil =>
    cases fuel with
    | zero => exact absurd hfu (by simp)
    | succ fu =>
      unfold regionsOk at hok
      simp only [List.all_nil, Bool.true_and, Bool.not_eq_true'] at hok
      show replaceRegionsGo a b f (fu + 1) tl = tl
      unfold replaceRegionsGo
      rw [splitFirst_none_of_not_contains hok]
  | cons p rest ih =>
    obtain ⟨g, body⟩ := p
    cases fuel with
    | zero => exact absurd hfu (by simp)
    | succ fu =>
      unfold regionsOk at hok
      simp only [List.all_cons, Bool.and_eq_true, Bool.not_eq_true'] at hok
      obtain ⟨⟨⟨hga, hbb⟩, hrest⟩, htl⟩ := hok
      have hok' : regionsOk a b rest tl = true := by
        unfold regionsOk
        simp only [Bool.and_eq_true, Bool.not_eq_true']
        exact ⟨hrest, htl⟩
      show replaceRegionsGo a b f (fu + 1)
          (g ++ a ++ body ++ b ++ renderRegions a b rest tl)
        = g ++ f (a ++ body ++ b) ++ renderRegionsOut f a b rest tl
      unfold replaceRegionsGo
      have hshape : g ++ a ++ body ++ b ++ renderRegions a b rest tl
          = g ++ a ++ (body ++ b ++ renderRegions a b rest tl) := by simp
      rw [hshape]
      simp only [splitFirst_append g _ hga, splitFirst_append body _ hbb]
      rw [ih fu (by simpa using Nat.lt_of_succ_lt_succ hfu) hok']

theorem renderRegions_length_ge (a b : List Char) (ha : a ≠ [])
    (parts : List (List Char × List Char)) (tl : List Char) :
    parts.length ≤ (renderRegions a b parts tl).length := by
  induction parts with
  | nil => simp [renderRegions]
  | cons p rest ih =>
    obtain ⟨g, body⟩ := p
    show rest.length + 1 ≤ (g ++ a ++ body ++ b ++ renderRegions a b rest tl).length
    have halen : 1 ≤ a.length := by
      cases a with
      | nil => exact absurd rfl ha
      | cons x xs => simp
    simp only [List.length_append]
    omega

/-- Generic behaviour of a region-replacing stage on a well-formed document. -/
theorem replaceRegions_render (a b : List Char) (f : List Char → List Char)
    (parts : List (List Char × List Char)) (tl : List Char) (ha : a ≠ [])
    (hok : regionsOk a b parts tl = true) :
    replaceRegions a b f (renderRegions a b parts tl)
      = renderRegionsOut f a b parts tl := by
  unfold replaceRegions
  exact replaceRegionsGo_render a b f parts tl _
    (Nat.lt_succ_of_le (renderRegions_length_ge a b ha parts tl)) hok

theorem replaceRegionsGo_id (a b : List Char) (ha : a ≠ []) (hb : b ≠ []) :
    ∀ fuel s, s.length < fuel → replaceRegionsGo a b (fun m => m) fuel s = s := by
  intro fuel
  induction fuel with
  | zero => intro s hs; exact absurd hs (by simp)
  | succ fu ih =>
    intro s hs
    unfold replaceRegionsGo
    cases hsa : splitFirst a s with
    | none => rfl
    | some pra =>
      obtain ⟨pre, rest⟩ := pra
      cases hsb : splitFirst b rest with
      | none => simp only [hsb]
      | some prb =>
        obtain ⟨mid, post⟩ := prb
        have hda := splitFirst_eq_some hsa
        have hdb := splitFirst_eq_some hsb
        have halen : 1 ≤ a.length := by
          cases a with
          | nil => exact absurd rfl ha
          | cons x xs => simp
        have hblen : 1 ≤ b.length := by
          cases b with
          | nil => exact absurd rfl hb
          | cons x xs => simp
        have hlen : post.length < fu := by
          have h1 : rest.length = mid.length + b.length + post.length := by
            rw [← hdb]; simp [List.length_append]; omega
          have h2 : s.length = pre.length + a.length + rest.length := by
            rw [← hda]; simp [List.length_append]; omega
          omega
        simp only [hsb]
        rw [ih post hlen]
        rw [← hda, ← hdb]
        simp

/-- When every match is replaced by itself, the stage is the identity. -/
theorem replaceRegions_id (a b : List Char) (ha : a ≠ []) (hb : b ≠ []) (s : List Char) :
    replaceRegions a b (fun m => m) s = s :=
  replaceRegionsGo_id a b ha hb _ s (Nat.lt_succ_self _)

/-- A stage whose start marker does not occur leaves the document unchanged. -/
theorem replaceRegions_not_contains (a b : List Char) (f : List Char → List Char)
    (s : List Char) (h : containsSub a s = false) :
    replaceRegions a b f s = s := by
  unfold replaceRegions replaceRegionsGo
  rw [splitFirst_none_of_not_contains h]

theorem replaceAllGo_render (pat rep : List Char) (gaps : List (List Char))
    (tl : List Char) (fuel : Nat) (hfu : gaps.length < fuel)
    (hok : gapsOk pat gaps tl = true) :
    replaceAllGo pat rep fuel (renderGaps pat gaps tl) = renderGapsOut rep gaps tl := by
  induction gaps generalizing fuel with
  | nil =>
    cases fuel with
    | zero => exact absurd hfu (by simp)
    | succ fu =>
      unfold gapsOk at hok
      simp only [List.all_nil, Bool.true_and, Bool.not_eq_true'] at hok
      show replaceAllGo pat rep (fu + 1) tl = tl
      unfold replaceAllGo
      rw [splitFirst_none_of_not_contains hok]
  | cons g rest ih =>
    cases fuel with
    | zero => exact absurd hfu (by simp)
    | succ fu =>
      unfold gapsOk at hok
      simp only [List.all_cons, Bool.and_eq_true, Bool.not_eq_true'] at hok
      obtain ⟨⟨hg, hrest⟩, htl⟩ := hok
      have hok' : gapsOk pat rest tl = true := by
        unfold gapsOk
        simp only [Bool.and_eq_true, Bool.not_eq_true']
        exact ⟨hrest, htl⟩
      show replaceAllGo pat rep (fu + 1) (g ++ pat ++ renderGaps pat rest tl)
        = g ++ rep ++ renderGapsOut rep rest tl
      unfold replaceAllGo
      simp only [splitFirst_append g _ hg]
      rw [ih fu (by simpa using Nat.lt_of_succ_lt_succ hfu) hok']

theorem renderGaps_length_ge (pat : List Char) (hp : pat ≠ [])
    (gaps : List (List Char)) (tl : List Char) :
    gaps.length ≤ (renderGaps pat gaps tl).length := by
  induction gaps with
  | nil => simp [renderGaps]
  | cons g rest ih =>
    show rest.length + 1 ≤ (g ++ pat ++ renderGaps pat rest tl).length
    have hplen : 1 ≤ pat.length := by
      cases pat with
      | nil => exact absurd rfl hp
      | cons x xs => simp
    simp only [List.length_append]
    omega

/-- Generic behaviour of the literal-replacing stage on a well-formed document. -/
theorem replaceAllL_render (pat rep : List Char) (gaps : List (List Char))
    (tl : List Char) (hp : pat ≠ []) (hok : gapsOk pat gaps tl = true) :
    replaceAllL pat rep (renderGaps pat gaps tl) = renderGapsOut rep gaps tl := by
  unfold replaceAllL
  exact replaceAllGo_render pat rep gaps tl _
    (Nat.lt_succ_of_le (renderGaps_length_ge pat hp gaps tl)) hok

theorem replaceAllL_not_contains (pat rep s : List Char)
    (h : containsSub pat s = false) : replaceAllL pat rep s = s := by
  unfold replaceAllL replaceAllGo
  rw [splitFirst_none_of_not_contains h]

/-! ### Small helper lemmas -/

theorem removeMarker_ne_nil (c : String) :
    ("<!-- remove:" ++ c ++ " -->").toList ≠ [] := by
  intro h
  have hlen := congrArg List.length h
  simp only [String.toList, String.data_append, List.length_append,
    List.length_nil] at hlen
  simp at hlen

theorem jsJoin_singleton (x : String) : jsJoin " " [x] = x := by
  unfold jsJoin
  simp [List.intercalate, List.intersperse]
  exact String.asString_toList x

theorem jsJoin_pair (x y : String) : jsJoin " " [x, y] = x ++ " " ++ y := by
  unfold jsJoin
  simp only [List.map_cons, List.map_nil, List.intercalate, List.intersperse,
    List.flatten]
  have : x ++ " " ++ y = ((x.toList ++ (" ".toList ++ (y.toList ++ []))).asString) := by
    have hd : (x ++ " " ++ y).data = x.toList ++ (" ".toList ++ (y.toList ++ [])) := by
      simp [String.data_append, String.toList]
    conv_lhs => rw [← String.asString_toList (x ++ " " ++ y)]
    rw [show (x ++ " " ++ y).toList = (x ++ " " ++ y).data from rfl, hd]
  rw [this]

/-! ### The claims -/

/-- C1: for every input document, the inject:js stage replaces each region
from `<!-- inject:js -->` to `<!-- endinject -->`, both markers included,
with the JS fragments joined by a single newline when the fragment list is
non-empty (the markers are consumed and absent from the replacement), and is
the identity on the whole document — every region left byte-for-byte
unchanged, markers retained — when the fragment list is empty; the inject:css
stage does the same for `<!-- inject:css -->` regions with the CSS
fragments. -/
theorem c1_inject_stages :
    (∀ (jsFiles : List String) (parts : List (List Char × List Char)) (tl : List Char),
      jsFiles ≠ [] →
      regionsOk ("<!-- inject:js -->").toList ("<!-- endinject -->").toList parts tl = true →
      Mjs.injectJsStage jsFiles
          (renderRegions ("<!-- inject:js -->").toList ("<!-- endinject -->").toList parts tl)
        = renderRegionsOut (fun _ => (jsJoin "\n" jsFiles).toList)
            ("<!-- inject:js -->").toList ("<!-- endinject -->").toList parts tl)
    ∧ (∀ s, Mjs.injectJsStage [] s = s)
    ∧ (∀ (cssFiles : List String) (parts : List (List Char × List Char)) (tl : List Char),
      cssFiles ≠ [] →
      regionsOk ("<!-- inject:css -->").toList ("<!-- endinject -->").toList parts tl = true →
      Mjs.injectCssStage cssFiles
          (renderRegions ("<!-- inject:css -->").toList ("<!-- endinject -->").toList parts tl)
        = renderRegionsOut (fun _ => (jsJoin "\n" cssFiles).toList)
            ("<!-- inject:css -->").toList ("<!-- endinject -->").toList parts tl)
    ∧ (∀ s, Mjs.injectCssStage [] s = s) := by
  refine ⟨?_, ?_, ?_, ?_⟩
  · intro jsFiles parts tl hne hok
    unfold Mjs.injectJsStage
    have hf : (fun m => if 0 < jsFiles.length then (jsJoin "\n" jsFiles).toList else m)
        = (fun _ : List Char => (jsJoin "\n" jsFiles).toList) := by
      funext m
      rw [if_pos (List.length_pos.mpr hne)]
    rw [hf]
    exact replaceRegions_render _ _ _ parts tl (by decide) hok
  · intro s
    unfold Mjs.injectJsStage
    have hf : (fun m => if 0 < ([] : List String).length then (jsJoin "\n" []).toList else m)
        = (fun m : List Char => m) := by
      funext m
      simp
    rw [hf]
    exact replaceRegions_id _ _ (by decide) (by decide) s
  · intro cssFiles parts tl hne hok
    unfold Mjs.injectCssStage
    have hf : (fun m => if 0 < cssFiles.length then (jsJoin "\n" cssFiles).toList else m)
        = (fun _ : List Char => (jsJoin "\n" cssFiles).toList) := by
      funext m
      rw [if_pos (List.length_pos.mpr hne)]
    rw [hf]
    exact replaceRegions_render _ _ _ parts tl (by decide) hok
  · intro s
    unfold Mjs.injectCssStage
    have hf : (fun m => if 0 < ([] : List String).length then (jsJoin "\n" []).toList else m)
        = (fun m : List Char => m) := by
      funext m
      simp
    rw [hf]
    exact replaceRegions_id _ _ (by decide) (by decide) s

/-- Witness for C1 on a concrete document with one region of each kind. -/
theorem c1_witness :
    (Mjs.injectJsStage ["<script src=\"a.js\"></script>", "<script src=\"b.js\"></script>"]
        (renderRegions ("<!-- inject:js -->").toList ("<!-- endinject -->").toList
          [(("P").toList, ("old").toList)] ("Q").toList)
      = renderRegionsOut
          (fun _ => (jsJoin "\n"
            ["<script src=\"a.js\"></script>", "<script src=\"b.js\"></script>"]).toList)
          ("<!-- inject:js -->").toList ("<!-- endinject -->").toList
          [(("P").toList, ("old").toList)] ("Q").toList)
    ∧ Mjs.injectJsStage [] ("P<!-- inject:js -->old<!-- endinject -->Q").toList
        = ("P<!-- inject:js -->old<!-- endinject -->Q").toList :=
  ⟨c1_inject_stages.1 _ [(("P").toList, ("old").toList)] ("Q").toList
      (by decide) (by decide),
    c1_inject_stages.2.1 _⟩

/-- Bridge helpers for C2: on a condition token free of regex
metacharacters, the interpolated pattern compiles to all-literal items and
the regex-fragment stage coincides with the literal-string stage. -/
theorem compileCondList_plain (l : List Char)
    (h : l.all (fun c => !(jsRegexSpecial c) && !(c = '.')) = true) :
    compileCondList l = some (l.map RegexItem.lit) := by
  induction l with
  | nil => rfl
  | cons c cs ih =>
    simp only [List.all_cons, Bool.and_eq_true, Bool.not_eq_true'] at h
    obtain ⟨⟨hs, hd⟩, hrest⟩ := h
    unfold compileCondList compileCondChar
    rw [if_neg (of_decide_eq_false hd)]
    rw [if_neg (by rw [hs]; exact Bool.false_ne_true)]
    rw [ih (by simpa using hrest)]
    rfl

theorem itemsMatchPrefix_lit (l : List Char) :
    ∀ s, itemsMatchPrefix (l.map RegexItem.lit) s
      = if l.isPrefixOf s then some (s.drop l.length) else none := by
  induction l with
  | nil =>
    intro s
    simp [itemsMatchPrefix]
  | cons c cs ih =>
    intro s
    cases s with
    | nil => simp [itemsMatchPrefix]
    | cons d ds =>
      simp only [List.map_cons, itemsMatchPrefix, itemMatches,
        List.isPrefixOf_cons₂, List.length_cons, List.drop_succ_cons]
      by_cases hcd : c = d
      · subst hcd
        simp [ih ds]
      · simp [hcd]

theorem splitFirstItems_lit (l : List Char) (s : List Char) :
    splitFirstItems (l.map RegexItem.lit) s = splitFirst l s := by
  induction s with
  | nil =>
    unfold splitFirstItems splitFirst
    rw [itemsMatchPrefix_lit]
    by_cases hp : l.isPrefixOf ([] : List Char) = true
    · rw [if_pos hp, if_pos hp]
    · rw [if_neg hp, if_neg hp]
  | cons c cs ih =>
    unfold splitFirstItems splitFirst
    rw [itemsMatchPrefix_lit]
    by_cases hp : l.isPrefixOf (c :: cs) = true
    · rw [if_pos hp, if_pos hp]
    · rw [if_neg hp, if_neg hp]
      show (splitFirstItems (l.map RegexItem.lit) cs).map _ = (splitFirst l cs).map _
      rw [ih]

theorem replaceRegionsItemsGo_lit (a b : List Char) :
    ∀ fuel s, replaceRegionsItemsGo (a.map RegexItem.lit) b fuel s
      = replaceRegionsGo a b (fun _ => []) fuel s := by
  intro fuel
  induction fuel with
  | zero => intro s; rfl
  | succ fu ih =>
    intro s
    unfold replaceRegionsItemsGo replaceRegionsGo
    rw [splitFirstItems_lit]
    cases hsa : splitFirst a s with
    | none => rfl
    | some pra =>
      obtain ⟨pre, rest⟩ := pra
      cases hsb : splitFirst b rest with
      | none => simp only [hsb]
      | some prb =>
        obtain ⟨mid, post⟩ := prb
        simp only [hsb]
        rw [ih]
        simp

theorem removeStageRegex_plain (cond : String)
    (h : cond.toList.all (fun c => !(jsRegexSpecial c) && !(c = '.')) = true)
    (s : List Char) :
    removeStageRegex cond s = some (Mjs.removeStage cond s) := by
  unfold removeStageRegex
  rw [compileCondList_plain cond.toList h]
  have hitems : removeStartItems (cond.toList.map RegexItem.lit)
      = (("<!-- remove:" ++ cond ++ " -->").toList).map RegexItem.lit := by
    unfold removeStartItems
    simp [String.toList, List.map_append]
  simp only [hitems]
  unfold Mjs.removeStage replaceRegionsItems replaceRegions
  rw [replaceRegionsItemsGo_lit]

/-- C2 counterexample: the remove condition is spliced into the regex
unescaped, so for the reachable argument `--remove a.c` (last colon token
`a.c`, whose `.` is a metacharacter matching any character) the stage deletes
the region whose condition token is `abc`, although `abc` differs from the
argument's token — refuting "leaves every region whose condition token does
not match untouched". -/
theorem c2_counterexample :
    removeConditionOf (some "a.c") = "a.c"
    ∧ ("abc" : String) ≠ "a.c"
    ∧ removeStageRegex (removeConditionOf (some "a.c"))
        ("<!-- remove:abc -->X<!-- endremove -->").toList
      = some []
    ∧ some (("<!-- remove:abc -->X<!-- endremove -->").toList)
      ≠ (some [] : Option (List Char)) :=
  ⟨by decide, by decide, by decide, by decide⟩

/-- C2 (amended): for every input document and every `--remove` argument
whose last colon-separated token is free of regex metacharacters — the token
is spliced unescaped into the regex, so metacharacter tokens change the
matched set — the remove stage deletes entirely (markers and enclosed
content) every region `<!-- remove:<c> -->…<!-- endremove -->` whose
condition token `<c>` equals that token (the empty string when `--remove` is
not supplied), and any document containing no start marker for that condition
— in particular one whose remove regions all carry non-matching condition
tokens — passes through unchanged, markers included.  Under the same
hypothesis the literal-string stage used in the pipeline coincides with the
regex-interpolation model `removeStageRegex`. -/
theorem c2_remove_stage (removeOpt : Option String)
    (hplain : (removeConditionOf removeOpt).toList.all
      (fun c => !(jsRegexSpecial c) && !(c = '.')) = true) :
    (∀ s, removeStageRegex (removeConditionOf removeOpt) s
        = some (Mjs.removeStage (removeConditionOf removeOpt) s))
    ∧ (∀ (parts : List (List Char × List Char)) (tl : List Char),
      regionsOk (("<!-- remove:" ++ removeConditionOf removeOpt ++ " -->").toList)
          ("<!-- endremove -->").toList parts tl = true →
      Mjs.removeStage (removeConditionOf removeOpt)
          (renderRegions (("<!-- remove:" ++ removeConditionOf removeOpt ++ " -->").toList)
            ("<!-- endremove -->").toList parts tl)
        = renderRegionsOut (fun _ => [])
            (("<!-- remove:" ++ removeConditionOf removeOpt ++ " -->").toList)
            ("<!-- endremove -->").toList parts tl)
    ∧ (∀ s, containsSub (("<!-- remove:" ++ removeConditionOf removeOpt ++ " -->").toList) s
          = false →
        Mjs.removeStage (removeConditionOf removeOpt) s = s) := by
  refine ⟨?_, ?_, ?_⟩
  · intro s
    exact removeStageRegex_plain (removeConditionOf removeOpt) hplain s
  · intro parts tl hok
    unfold Mjs.removeStage
    exact replaceRegions_render _ _ _ parts tl
      (removeMarker_ne_nil (removeConditionOf removeOpt)) hok
  · intro s hs
    unfold Mjs.removeStage
    exact replaceRegions_not_contains _ _ _ s hs

/-- Witness for C2, the spec's own scenario: `--remove development` (a
metacharacter-free token) on
`<!-- remove:development -->X<!-- endremove --><!-- remove:production -->Y<!-- endremove -->`
deletes the development block with its markers and leaves the production block
intact (it sits inside the trailing free text, which the theorem returns
verbatim); the regex-interpolation model agrees with the literal stage
there. -/
theorem c2_witness :
    removeStageRegex (removeConditionOf (some "development"))
        ("<!-- remove:production -->Y<!-- endremove -->").toList
      = some (Mjs.removeStage (removeConditionOf (some "development"))
          ("<!-- remove:production -->Y<!-- endremove -->").toList)
    ∧ Mjs.removeStage (removeConditionOf (some "development"))
        (renderRegions
          (("<!-- remove:" ++ removeConditionOf (some "development") ++ " -->").toList)
          ("<!-- endremove -->").toList
          [(([] : List Char), ("X").toList)]
          ("<!-- remove:production -->Y<!-- endremove -->").toList)
      = renderRegionsOut (fun _ => [])
          (("<!-- remove:" ++ removeConditionOf (some "development") ++ " -->").toList)
          ("<!-- endremove -->").toList
          [(([] : List Char), ("X").toList)]
          ("<!-- remove:production -->Y<!-- endremove -->").toList
    ∧ Mjs.removeStage (removeConditionOf (some "development"))
        ("<!-- remove:production -->Y<!-- endremove -->").toList
      = ("<!-- remove:production -->Y<!-- endremove -->").toList :=
  ⟨(c2_remove_stage (some "development") (by decide)).1
      ("<!-- remove:production -->Y<!-- endremove -->").toList,
    (c2_remove_stage (some "development") (by decide)).2.1
      [(([] : List Char), ("X").toList)]
      ("<!-- remove:production -->Y<!-- endremove -->").toList (by decide),
    (c2_remove_stage (some "development") (by decide)).2.2
      ("<!-- remove:production -->Y<!-- endremove -->").toList (by decide)⟩

/-- C3 counterexample: with `--hash` absent the revision is empty and the
marker is replaced by `<!--  -->` — two spaces, the template's own — not by
the claimed `<!-- -->`. -/
theorem c3_counterexample :
    Mjs.gitHashStage "" ("<!-- inject:git-hash -->").toList = ("<!--  -->").toList
    ∧ ("<!--  -->" : String) ≠ "<!-- -->" :=
  ⟨by decide, by decide⟩

/-- C3 (amended): the pipeline replaces every occurrence of
`<!-- inject:git-hash -->` with `<!-- <revision> -->`, and when `--hash` is
not given the revision is the empty string, so the marker is replaced by
exactly the string `<!--  -->` (the template keeps its two spaces around the
empty revision). -/
theorem c3_git_hash_stage (revision : String) (gaps : List (List Char)) (tl : List Char)
    (hok : gapsOk ("<!-- inject:git-hash -->").toList gaps tl = true) :
    Mjs.gitHashStage revision (renderGaps ("<!-- inject:git-hash -->").toList gaps tl)
      = renderGapsOut (("<!-- " ++ revision ++ " -->").toList) gaps tl
    ∧ Mjs.gitHashStage "" (renderGaps ("<!-- inject:git-hash -->").toList gaps tl)
      = renderGapsOut (("<!--  -->").toList) gaps tl := by
  constructor
  · exact replaceAllL_render _ _ gaps tl (by decide) hok
  · have h := replaceAllL_render ("<!-- inject:git-hash -->").toList
      (("<!-- " ++ "" ++ " -->").toList) gaps tl (by decide) hok
    rw [show ("<!-- " ++ "" ++ " -->" : String) = "<!--  -->" from by decide] at h
    exact h

/-- Witness for C3's amended statement on a two-marker document. -/
theorem c3_witness :
    Mjs.gitHashStage "deadbeef"
        (renderGaps ("<!-- inject:git-hash -->").toList
          [("A").toList, ("B").toList] ("C").toList)
      = renderGapsOut (("<!-- " ++ "deadbeef" ++ " -->").toList)
          [("A").toList, ("B").toList] ("C").toList
    ∧ Mjs.gitHashStage ""
        (renderGaps ("<!-- inject:git-hash -->").toList
          [("A").toList, ("B").toList] ("C").toList)
      = renderGapsOut (("<!--  -->").toList) [("A").toList, ("B").toList] ("C").toList :=
  ⟨(c3_git_hash_stage "deadbeef" [("A").toList, ("B").toList] ("C").toList (by decide)).1,
    (c3_git_hash_stage "deadbeef" [("A").toList, ("B").toList] ("C").toList (by decide)).2⟩

/-- C4: for every non-glob pattern, the resolver returns: for a directory, the
immediate entries whose names end with the extension as a literal suffix, each
joined to the directory path (and exactly those, by the membership
characterisation); for a regular file, the single-element list holding the
pattern unchanged; for any other successfully statted path, the empty
list. -/
theorem c4_patternToFileNames (fs : FSEnv) (pattern extension : String)
    (hmagic : fs.hasMagic pattern = false) :
    (∀ entries, fs.lstat pattern = some (.directory entries) →
      Mjs.patternToFileNames fs pattern extension
          = .ok ((entries.filter (fun f => jsEndsWith f extension)).map
              (fun f => posixJoin pattern f))
        ∧ ∀ p, (p ∈ (entries.filter (fun f => jsEndsWith f extension)).map
              (fun f => posixJoin pattern f)
            ↔ ∃ e ∈ entries, jsEndsWith e extension = true ∧ p = posixJoin pattern e))
    ∧ (fs.lstat pattern = some .file →
        Mjs.patternToFileNames fs pattern extension = .ok [pattern])
    ∧ (fs.lstat pattern = some .special →
        Mjs.patternToFileNames fs pattern extension = .ok []) := by
  refine ⟨?_, ?_, ?_⟩
  · intro entries hstat
    constructor
    · unfold Mjs.patternToFileNames
      rw [hmagic, hstat]
      simp
    · intro p
      simp only [List.mem_map, List.mem_filter]
      constructor
      · rintro ⟨e, ⟨he, hext⟩, hp⟩
        exact ⟨e, he, hext, hp.symm⟩
      · rintro ⟨e, he, hext, hp⟩
        exact ⟨e, ⟨he, hext⟩, hp.symm⟩
  · intro hstat
    unfold Mjs.patternToFileNames
    rw [hmagic, hstat]
    simp
  · intro hstat
    unfold Mjs.patternToFileNames
    rw [hmagic, hstat]
    simp

/-- Witness for C4 on `fsDemo`: directory, file and special cases. -/
theorem c4_witness :
    (Mjs.patternToFileNames fsDemo "build" ".css"
        = .ok ((["app.js", "app.css", "readme.txt"].filter
            (fun f => jsEndsWith f ".css")).map (fun f => posixJoin "build" f))
      ∧ ∀ p, (p ∈ (["app.js", "app.css", "readme.txt"].filter
            (fun f => jsEndsWith f ".css")).map (fun f => posixJoin "build" f)
          ↔ ∃ e ∈ ["app.js", "app.css", "readme.txt"],
              jsEndsWith e ".css" = true ∧ p = posixJoin "build" e))
    ∧ Mjs.patternToFileNames fsDemo "build/app.js" ".js" = .ok ["build/app.js"]
    ∧ Mjs.patternToFileNames fsDemo "sock" ".js" = .ok [] :=
  ⟨(c4_patternToFileNames fsDemo "build" ".css" (by decide)).1
      ["app.js", "app.css", "readme.txt"] (by decide),
    (c4_patternToFileNames fsDemo "build/app.js" ".js" (by decide)).2.1 (by decide),
    (c4_patternToFileNames fsDemo "sock" ".js" (by decide)).2.2 (by decide)⟩

/-- C5: in linked (non-inline) mode with an ignore prefix configured (and etag
off, isolating the slice), the emitted path is the resolved path with exactly
prefix-length leading characters removed — a blind character-count slice,
holding for every path, whether or not it actually starts with the prefix. -/
theorem c5_ignore_slice (fs : FSEnv) (o : TagOpts) (ig fileName : String)
    (hinline : o.inline = false) (hignore : o.ignore = some ig)
    (hetag : o.etag = false) :
    Mjs.scriptTagFor fs o fileName
      = .ok ("<script src=\"" ++ jsSlice fileName (jsLength ig) ++ "\"></script>")
    ∧ P000.styleTagFor fs o fileName
      = .ok ("<link rel=\"stylesheet\" href=\"" ++ jsSlice fileName (jsLength ig) ++ "\">") := by
  constructor
  · unfold Mjs.scriptTagFor
    rw [hinline, hignore, hetag]
    rfl
  · unfold P000.styleTagFor
    rw [hinline, hignore, hetag]
    rfl

/-- Witness for C5 at a path that does not start with the configured prefix:
the slice still removes `jsLength "build/" = 6` characters. -/
theorem c5_witness :
    Mjs.scriptTagFor fsDemo ⟨false, false, false, some "build/", false⟩ "other/x.js"
      = .ok ("<script src=\"" ++ jsSlice "other/x.js" (jsLength "build/") ++ "\"></script>")
    ∧ P000.styleTagFor fsDemo ⟨false, false, false, some "build/", false⟩ "other/x.js"
      = .ok ("<link rel=\"stylesheet\" href=\""
          ++ jsSlice "other/x.js" (jsLength "build/") ++ "\">")
    ∧ jsSlice "other/x.js" (jsLength "build/") = "x.js"
    ∧ ("build/").toList.isPrefixOf ("other/x.js").toList = false :=
  ⟨(c5_ignore_slice fsDemo ⟨false, false, false, some "build/", false⟩ "build/" "other/x.js"
      rfl rfl rfl).1,
    (c5_ignore_slice fsDemo ⟨false, false, false, some "build/", false⟩ "build/" "other/x.js"
      rfl rfl rfl).2,
    by decide, by decide⟩

/-- C6 counterexample: with ignore prefix `build/` and etag on, resolving
`build/app.js` (content `"AAA"`) emits a tag whose digest is of `"BBB"`, the
content of the file at the *stripped* path `app.js` — not, as claimed, the
digest of the resolved file's own content `"AAA"`. -/
theorem c6_counterexample :
    Mjs.scriptTagFor fsDemo ⟨false, false, false, some "build/", true⟩ "build/app.js"
      = .ok ("<script src=\"" ++ ("app.js" ++ "?etag=" ++ fsDemo.hexDigest "BBB")
          ++ "\"></script>")
    ∧ fsDemo.readFile "build/app.js" = some "AAA"
    ∧ fsDemo.readFile "app.js" = some "BBB"
    ∧ (Except.ok ("<script src=\"" ++ ("app.js" ++ "?etag=" ++ fsDemo.hexDigest "BBB")
          ++ "\"></script>") : Except String String)
      ≠ .ok ("<script src=\"" ++ ("app.js" ++ "?etag=" ++ fsDemo.hexDigest "AAA")
          ++ "\"></script>") :=
  ⟨by decide, by decide, by decide, by decide⟩

/-- C6 (amended): in linked mode with etag enabled, the emitted path is the
(possibly prefix-stripped) path with `?etag=<hexdigest>` appended, where the
digest is of the content of the file *named by the stripped path* — the read
happens after the ignore slice, so with an ignore prefix it is not in general
the originally resolved file. -/
theorem c6_etag_digest (fs : FSEnv) (o : TagOpts) (fileName content : String)
    (hinline : o.inline = false) (hetag : o.etag = true)
    (hread : fs.readFile (match o.ignore with
        | some ig => jsSlice fileName (jsLength ig)
        | none => fileName) = some content) :
    Mjs.scriptTagFor fs o fileName
      = .ok ("<script src=\"" ++ ((match o.ignore with
          | some ig => jsSlice fileName (jsLength ig)
          | none => fileName) ++ "?etag=" ++ fs.hexDigest content)
          ++ "\"></script>") := by
  unfold Mjs.scriptTagFor Mjs.appendETagSHAToFilename
  rw [hinline, hetag]
  cases hig : o.ignore with
  | none =>
    rw [hig] at hread
    simp only [hread]
    rfl
  | some ig =>
    rw [hig] at hread
    simp only [hread]
    rfl

/-- Witness for C6's amended statement, with no ignore prefix: the digested
file is then the resolved one. -/
theorem c6_witness :
    Mjs.scriptTagFor fsDemo ⟨false, false, false, none, true⟩ "build/app.js"
      = .ok ("<script src=\"" ++ ((match (none : Option String) with
          | some ig => jsSlice "build/app.js" (jsLength ig)
          | none => "build/app.js") ++ "?etag=" ++ fsDemo.hexDigest "AAA")
          ++ "\"></script>") :=
  c6_etag_digest fsDemo ⟨false, false, false, none, true⟩ "build/app.js" "AAA"
    rfl rfl (by decide)

/-- C7: for every JS file in linked mode (etag off, isolating the
attributes), the `src/unnamed/part_000` script tag carries `async` when async
is requested — also when defer is requested too, async winning — carries
`defer` when only defer is requested, and carries neither otherwise, never
both; CSS files are emitted as `<link rel="stylesheet" href="<path>">`
tags. -/
theorem c7_async_defer (fs : FSEnv) (o : TagOpts) (fileName : String)
    (hinline : o.inline = false) (hetag : o.etag = false) :
    (o.async = true →
      P000.scriptTagFor fs o fileName
        = .ok ("<script " ++ (("src=\"" ++ (match o.ignore with
            | some ig => jsSlice fileName (jsLength ig)
            | none => fileName) ++ "\"") ++ " " ++ "async") ++ "></script>"))
    ∧ (o.async = false → o.defer = true →
      P000.scriptTagFor fs o fileName
        = .ok ("<script " ++ (("src=\"" ++ (match o.ignore with
            | some ig => jsSlice fileName (jsLength ig)
            | none => fileName) ++ "\"") ++ " " ++ "defer") ++ "></script>"))
    ∧ (o.async = false → o.defer = false →
      P000.scriptTagFor fs o fileName
        = .ok ("<script " ++ ("src=\"" ++ (match o.ignore with
            | some ig => jsSlice fileName (jsLength ig)
            | none => fileName) ++ "\"") ++ "></script>"))
    ∧ P000.styleTagFor fs o fileName
        = .ok ("<link rel=\"stylesheet\" href=\"" ++ (match o.ignore with
            | some ig => jsSlice fileName (jsLength ig)
            | none => fileName) ++ "\">") := by
  refine ⟨?_, ?_, ?_, ?_⟩
  · intro hasync
    unfold P000.scriptTagFor
    rw [hinline, hetag, hasync]
    cases hig : o.ignore with
    | none => simp [jsJoin_pair, Except.map]
    | some ig => simp [jsJoin_pair, Except.map]
  · intro hasync hdefer
    unfold P000.scriptTagFor
    rw [hinline, hetag, hasync, hdefer]
    cases hig : o.ignore with
    | none => simp [jsJoin_pair, Except.map]
    | some ig => simp [jsJoin_pair, Except.map]
  · intro hasync hdefer
    unfold P000.scriptTagFor
    rw [hinline, hetag, hasync, hdefer]
    cases hig : o.ignore with
    | none => simp [jsJoin_singleton, Except.map]
    | some ig => simp [jsJoin_singleton, Except.map]
  · unfold P000.styleTagFor
    rw [hinline, hetag]
    cases hig : o.ignore with
    | none => rfl
    | some ig => rfl

/-- Witness for C7: async together with defer yields the async tag; defer
alone yields the defer tag; neither yields the bare tag; css yields a link
tag. -/
theorem c7_witness :
    P000.scriptTagFor fsDemo ⟨true, true, false, none, false⟩ "a.js"
      = .ok ("<script " ++ (("src=\"" ++ "a.js" ++ "\"") ++ " " ++ "async") ++ "></script>")
    ∧ P000.scriptTagFor fsDemo ⟨false, true, false, none, false⟩ "a.js"
      = .ok ("<script " ++ (("src=\"" ++ "a.js" ++ "\"") ++ " " ++ "defer") ++ "></script>")
    ∧ P000.scriptTagFor fsDemo ⟨false, false, false, none, false⟩ "a.js"
      = .ok ("<script " ++ ("src=\"" ++ "a.js" ++ "\"") ++ "></script>")
    ∧ P000.styleTagFor fsDemo ⟨true, true, false, none, false⟩ "a.css"
      = .ok ("<link rel=\"stylesheet\" href=\"" ++ "a.css" ++ "\">") :=
  ⟨(c7_async_defer fsDemo ⟨true, true, false, none, false⟩ "a.js" rfl rfl).1 rfl,
    (c7_async_defer fsDemo ⟨false, true, false, none, false⟩ "a.js" rfl rfl).2.1 rfl rfl,
    (c7_async_defer fsDemo ⟨false, false, false, none, false⟩ "a.js" rfl rfl).2.2.1 rfl rfl,
    (c7_async_defer fsDemo ⟨true, true, false, none, false⟩ "a.css" rfl rfl).2.2.2⟩

/-- C8 (the code bug): in `src/postbuild.mjs`, when a non-glob `--js` pattern
names a missing path, the catch block's message template references the
identifier `js`, which is bound in no enclosing scope, so a `ReferenceError`
escapes the handler: the run does not print the intended
"File or folder … not found" message naming the pattern (it crashes with an
unhandled exception instead), whatever value any in-scope identifier has.
`src/unnamed/part_000`, whose catch interpolates `options.js`, produces
exactly the claimed message. -/
theorem c8_catch_reference_error :
    (∀ valueOf : String → String,
      Mjs.resolveJsTags fsDemo ⟨false, false, false, none, false⟩ valueOf "missing.js"
        = .uncaughtException)
    ∧ P000.resolveJsTags fsDemo ⟨false, false, false, none, false⟩ "missing.js"
        = .fatalMessage "File or folder 'missing.js' not found"
    ∧ "js" ∉ Mjs.jsCatchScopeNames := by
  refine ⟨?_, by decide, by decide⟩
  intro valueOf
  have h1 : Mjs.filePatternToScriptTags fsDemo "missing.js" ⟨false, false, false, none, false⟩
      = .error "missing.js" := by decide
  unfold Mjs.resolveJsTags
  rw [h1]
  unfold lookupName
  rw [if_neg (by decide : ¬ ("js" ∈ Mjs.jsCatchScopeNames))]

/-- Helper: the inject stages with an empty fragment list replace every match
by itself, hence are the identity. -/
theorem injectJsStage_nil (s : List Char) : Mjs.injectJsStage [] s = s := by
  unfold Mjs.injectJsStage
  have hf : (fun m => if 0 < ([] : List String).length then (jsJoin "\n" []).toList else m)
      = (fun m : List Char => m) := by
    funext m
    simp
  rw [hf]
  exact replaceRegions_id _ _ (by decide) (by decide) s

theorem injectCssStage_nil (s : List Char) : Mjs.injectCssStage [] s = s := by
  unfold Mjs.injectCssStage
  have hf : (fun m => if 0 < ([] : List String).length then (jsJoin "\n" []).toList else m)
      = (fun m : List Char => m) := by
    funext m
    simp
  rw [hf]
  exact replaceRegions_id _ _ (by decide) (by decide) s

set_option maxRecDepth 100000 in
/-- C9 counterexample: with no css/js/remove/hash options, the remove stage
still runs with the empty condition, so a region
`<!-- remove: -->…<!-- endremove -->` is deleted; on a document containing
all four marker kinds the output is not the input with only the git-hash
marker rewritten. -/
theorem c9_counterexample :
    Mjs.transformPipeline [] [] "" ""
        "A<!-- inject:css -->c<!-- endinject -->B<!-- inject:js -->j<!-- endinject -->C<!-- inject:git-hash -->D<!-- remove: -->X<!-- endremove -->E"
      = "A<!-- inject:css -->c<!-- endinject -->B<!-- inject:js -->j<!-- endinject -->C<!--  -->DE"
    ∧ ("A<!-- inject:css -->c<!-- endinject -->B<!-- inject:js -->j<!-- endinject -->C<!--  -->DE" : String)
      ≠ "A<!-- inject:css -->c<!-- endinject -->B<!-- inject:js -->j<!-- endinject -->C<!--  -->D<!-- remove: -->X<!-- endremove -->E" :=
  ⟨by decide, by decide⟩

/-- C9 (amended): with no css, js, remove, or hash options the js and css
stages are the identity, and provided the document (after git-hash
replacement) contains no `<!-- remove: -->` start marker — with `--remove`
absent the condition token is the empty string, so such regions would still
be deleted — the output is the input with each `<!-- inject:git-hash -->`
marker replaced by the empty-hash comment `<!--  -->` and every other byte,
including inject and remove regions and their markers, unchanged. -/
theorem c9_no_options (gaps : List (List Char)) (tl : List Char)
    (hok : gapsOk ("<!-- inject:git-hash -->").toList gaps tl = true)
    (hrem : containsSub (("<!-- remove:" ++ removeConditionOf none ++ " -->").toList)
        (renderGapsOut (("<!--  -->").toList) gaps tl) = false) :
    Mjs.pipelineCore [] [] "" (removeConditionOf none)
        (renderGaps ("<!-- inject:git-hash -->").toList gaps tl)
      = renderGapsOut (("<!--  -->").toList) gaps tl := by
  unfold Mjs.pipelineCore
  rw [injectJsStage_nil, injectCssStage_nil]
  have hgh : Mjs.gitHashStage "" (renderGaps ("<!-- inject:git-hash -->").toList gaps tl)
      = renderGapsOut (("<!--  -->").toList) gaps tl := by
    unfold Mjs.gitHashStage
    have h := replaceAllL_render ("<!-- inject:git-hash -->").toList
      (("<!-- " ++ "" ++ " -->").toList) gaps tl (by decide) hok
    rw [show ("<!-- " ++ "" ++ " -->" : String) = "<!--  -->" from by decide] at h
    exact h
  rw [hgh]
  unfold Mjs.removeStage
  exact replaceRegions_not_contains _ _ _ _ hrem

set_option maxRecDepth 100000 in
/-- Witness for C9's amended statement on a document holding untouched inject
regions, a remove region with a non-empty condition, and one git-hash
marker. -/
theorem c9_witness :
    Mjs.pipelineCore [] [] "" (removeConditionOf none)
        (renderGaps ("<!-- inject:git-hash -->").toList
          [("<!-- inject:js -->j<!-- endinject --><!-- remove:dev -->X<!-- endremove -->").toList]
          ("Z").toList)
      = renderGapsOut (("<!--  -->").toList)
          [("<!-- inject:js -->j<!-- endinject --><!-- remove:dev -->X<!-- endremove -->").toList]
          ("Z").toList :=
  c9_no_options
    [("<!-- inject:js -->j<!-- endinject --><!-- remove:dev -->X<!-- endremove -->").toList]
    ("Z").toList (by decide) (by decide)

/-- Helper for C10: the two per-file tag loops agree for any tag function. -/
theorem tagsFor_eq (tag : String → Except String String) (files : List String) :
    Mjs.tagsFor tag files = P000.tagsFor tag files := by
  induction files with
  | nil => rfl
  | cons f rest ih =>
    unfold Mjs.tagsFor P000.tagsFor
    cases tag f with
    | error e => rfl
    | ok t =>
      simp only []
      rw [ih]

/-- Helper for C10: with async and defer off, the part_000 script tag — the
joined attribute list — collapses to the postbuild.mjs template. -/
theorem scriptTagFor_eq (fs : FSEnv) (o : TagOpts) (f : String)
    (ha : o.async = false) (hd : o.defer = false) :
    Mjs.scriptTagFor fs o f = P000.scriptTagFor fs o f := by
  unfold Mjs.scriptTagFor P000.scriptTagFor
  rw [ha, hd]
  cases hin : o.inline with
  | true => rfl
  | false =>
    simp only [Bool.false_eq_true, if_false]
    congr 1
    funext p
    simp only [Bool.false_eq_true, if_false, List.append_nil, jsJoin_singleton]
    apply String.ext
    simp [String.data_append]

/-- Helper for C10: the style-tag generators are textually identical. -/
theorem styleTagFor_eq (fs : FSEnv) (o : TagOpts) (f : String) :
    Mjs.styleTagFor fs o f = P000.styleTagFor fs o f := rfl

/-- C10: with async and defer not requested, the two implementations are
equivalent: the tag-generation functions return identical results (script,
style and link tags character for character, and identical error outcomes),
and the four-stage pipelines produce identical output on every input. -/
theorem c10_equivalence (fs : FSEnv) (o : TagOpts) (pattern : String)
    (ha : o.async = false) (hd : o.defer = false) :
    Mjs.filePatternToScriptTags fs pattern o = P000.filePatternToScriptTags fs pattern o
    ∧ Mjs.filePatternToStyleTags fs pattern o = P000.filePatternToStyleTags fs pattern o
    ∧ ∀ (jsFiles cssFiles : List String) (revision removeCondition input : String),
        Mjs.transformPipeline jsFiles cssFiles revision removeCondition input
          = P000.transformPipeline jsFiles cssFiles revision removeCondition input := by
  refine ⟨?_, ?_, ?_⟩
  · unfold Mjs.filePatternToScriptTags P000.filePatternToScriptTags
    have hpf : Mjs.patternToFileNames = P000.patternToFileNames := rfl
    rw [← hpf]
    cases hp : Mjs.patternToFileNames fs pattern ".js" with
    | error e => rfl
    | ok fns =>
      have htag : Mjs.scriptTagFor fs o = P000.scriptTagFor fs o :=
        funext (fun f => scriptTagFor_eq fs o f ha hd)
      rw [htag]
      exact tagsFor_eq _ fns
  · unfold Mjs.filePatternToStyleTags P000.filePatternToStyleTags
    have hpf : Mjs.patternToFileNames = P000.patternToFileNames := rfl
    rw [← hpf]
    cases hp : Mjs.patternToFileNames fs pattern ".css" with
    | error e => rfl
    | ok fns =>
      have htag : Mjs.styleTagFor fs o = P000.styleTagFor fs o :=
        funext (fun f => styleTagFor_eq fs o f)
      rw [htag]
      exact tagsFor_eq _ fns
  · intro jsFiles cssFiles revision removeCondition input
    rfl

/-- Witness for C10 on `fsDemo`: same tag lists and same pipeline output. -/
theorem c10_witness :
    Mjs.filePatternToScriptTags fsDemo "build" ⟨false, false, false, none, false⟩
      = P000.filePatternToScriptTags fsDemo "build" ⟨false, false, false, none, false⟩
    ∧ Mjs.filePatternToStyleTags fsDemo "build" ⟨false, false, false, none, false⟩
      = P000.filePatternToStyleTags fsDemo "build" ⟨false, false, false, none, false⟩
    ∧ ∀ (jsFiles cssFiles : List String) (revision removeCondition input : String),
        Mjs.transformPipeline jsFiles cssFiles revision removeCondition input
          = P000.transformPipeline jsFiles cssFiles revision removeCondition input :=
  c10_equivalence fsDemo ⟨false, false, false, none, false⟩ "build" rfl rfl
